import Mathlib

/-!
Verification development for the TOON codec ("Token-Oriented Object
Notation").  The repository ships the public test-suite and API
documentation of the codec; the codec implementation itself
(`packages/toon/src`) is not part of the sources, except for the literal
recognizers (`isBooleanOrNullLiteral`, `isNumericLiteral`), whose source
accompanies the test file.  The embedding below therefore models the
decoder, builder, path expansion and encoder from the specification, and
the literal recognizers from their source.
-/

namespace Toon

abbrev Chars := List Char

/-- The double-quote character, written via its code point. -/
def quoteChar : Char := Char.ofNat 34

/-- The opening curly brace character, written via its code point. -/
def lbraceChar : Char := Char.ofNat 123

/-- The closing curly brace character, written via its code point. -/
def rbraceChar : Char := Char.ofNat 125

/-- An exact decimal number `mant / 10 ^ scale`.  Parsed numbers are
kept in canonical form: the scale is minimal (no trailing fraction
zeros), so structurally equal decimals denote equal numbers. -/
structure DecNum where
  mant : Int
  scale : Nat
deriving DecidableEq

instance (n : Nat) : OfNat DecNum n := ⟨⟨Int.ofNat n, 0⟩⟩

/-- JSON-domain primitive values.  Numbers are modelled as exact
decimals: every numeric literal denotes an exact decimal value. -/
inductive Prim where
  | str (s : String)
  | num (d : DecNum)
  | boolean (b : Bool)
  | null
deriving DecidableEq

/-- JSON-domain values: objects are ordered key-value lists, arrays are
ordered element lists. -/
inductive Json where
  | prim (p : Prim)
  | arr (elems : List Json)
  | obj (fields : List (String × Json))

/-- Streaming decoder events, per section 3 of the spec:
`startObject`, `endObject`, `startArray{length}`, `endArray`,
`key{key, wasQuoted}`, `primitive{value}`. -/
inductive Event where
  | startObject
  | endObject
  | startArray (length : Nat)
  | endArray
  | key (k : String) (wasQuoted : Bool)
  | primitive (v : Prim)
deriving DecidableEq

/-- Error kinds surfaced by the codec, per section 7 of the spec. -/
inductive DErr where
  | malformedHeader
  | indentationError
  | lengthMismatch
  | delimiterMismatch
  | badEscape
  | unterminatedString
  | incompleteStream
  | expansionConflict
  | unsupportedOption
deriving DecidableEq

/-- Path-expansion mode for decoding. -/
inductive ExpandPaths where
  | off
  | safe
deriving DecidableEq

/-- Key-folding mode for encoding. -/
inductive KeyFolding where
  | off
  | safe
deriving DecidableEq

/-- Decode options: indent width, strict flag, path expansion mode. -/
structure DecodeOptions where
  indent : Nat
  strict : Bool
  expandPaths : ExpandPaths
deriving DecidableEq

/-- The default decode options: indent 2, strict, expansion off. -/
def defaultDecodeOptions : DecodeOptions := ⟨2, true, .off⟩

/-- Encode options: indent width, delimiter, key folding, flatten depth
(`none` models the default unbounded depth). -/
structure EncodeOptions where
  indent : Nat
  delimiter : Char
  keyFolding : KeyFolding
  flattenDepth : Option Nat

/-- The default encode options: indent 2, comma delimiter, folding off. -/
def defaultEncodeOptions : EncodeOptions := ⟨2, ',', .off, none⟩

/-! ## Character-level utilities -/

/-- Count the leading space characters of a line. -/
def countLeadingSpaces : Chars → Nat
  | ' ' :: rest => countLeadingSpaces rest + 1
  | _ => 0

/-- Drop the leading space characters of a line. -/
def dropLeadingSpaces : Chars → Chars
  | ' ' :: rest => dropLeadingSpaces rest
  | cs => cs

/-- Trim space characters from both ends of a token. -/
def trimSpaces (cs : Chars) : Chars :=
  ((dropLeadingSpaces ((dropLeadingSpaces cs).reverse)).reverse)

/-! ## Literal recognizers

Modelled from the source literal-recognizer module shipped with the test
suite (`isBooleanOrNullLiteral`, `isNumericLiteral`). -/

/-- Decimal digit test. -/
def isDigitC (c : Char) : Bool := decide ('0' ≤ c ∧ c ≤ '9')

/-- A non-empty run consisting solely of decimal digits. -/
def allDigits1 (cs : Chars) : Bool := (decide (cs ≠ [])) && cs.all isDigitC

/-- Matcher for the exponent digits `[+-]?\d+` at the end of a token. -/
def matchSignedDigits : Chars → Bool
  | '+' :: rest => allDigits1 rest
  | '-' :: rest => allDigits1 rest
  | rest => allDigits1 rest

/-- Matcher for the optional exponent suffix `([eE][+-]?\d+)?$`. -/
def matchExpSuffix : Chars → Bool
  | [] => true
  | 'e' :: rest => matchSignedDigits rest
  | 'E' :: rest => matchSignedDigits rest
  | _ => false

/-- Matcher for the optional fraction suffix `(\.\d+)?([eE][+-]?\d+)?$`. -/
def matchFracSuffix : Chars → Bool
  | '.' :: rest =>
      allDigits1 (rest.takeWhile isDigitC) && matchExpSuffix (rest.dropWhile isDigitC)
  | rest => matchExpSuffix rest

/-- Matcher for `(0|[1-9]\d*)(\.\d+)?([eE][+-]?\d+)?$` (after the
optional leading minus sign). -/
def matchIntRest : Chars → Bool
  | [] => false
  | '0' :: rest => matchFracSuffix rest
  | c :: rest => isDigitC c && matchFracSuffix (rest.dropWhile isDigitC)

/-- Modelled from the source: the numeric grammar
`^-?(0|[1-9]\d*)(\.\d+)?([eE][+-]?\d+)?$` used by `isNumericLiteral`
(leading zeros such as `01` fail the `(0|[1-9]\d*)` alternative). -/
def matchesNumericGrammar : Chars → Bool
  | '-' :: rest => matchIntRest rest
  | cs => matchIntRest cs

/-- Numeric value of a decimal digit character. -/
def digitVal (c : Char) : Nat := c.toNat - 48

/-- Value of a digit run as a natural number. -/
def natOfDigits (cs : Chars) : Nat := cs.foldl (fun a c => a * 10 + digitVal c) 0

/-- Value of an exponent suffix body `[+-]?\d+` as an integer. -/
def parseExpInt : Chars → Int
  | '+' :: rest => (natOfDigits rest : Int)
  | '-' :: rest => -(natOfDigits rest : Int)
  | rest => (natOfDigits rest : Int)

/-- Decompose a numeric token into (negative?, integer digits, fraction
digits, exponent).  Best effort on tokens outside the grammar. -/
def splitNumTok (cs : Chars) : Bool × Chars × Chars × Int :=
  let (neg, cs1) := match cs with
    | '-' :: rest => (true, rest)
    | _ => (false, cs)
  let intD := cs1.takeWhile isDigitC
  let cs2 := cs1.dropWhile isDigitC
  let (fracD, cs3) := match cs2 with
    | '.' :: rest => (rest.takeWhile isDigitC, rest.dropWhile isDigitC)
    | _ => (([] : Chars), cs2)
  let e : Int := match cs3 with
    | 'e' :: rest => parseExpInt rest
    | 'E' :: rest => parseExpInt rest
    | _ => 0
  (neg, intD, fracD, e)

/-- Smallest magnitude that overflows an IEEE-754 double to infinity
under round-to-nearest-even: `2^1024 - 2^970`, written as an explicit
numeral so that it evaluates cheaply.  `Number(token)` is finite
exactly when the token's exact value is below this bound. -/
def doubleOverflowBound : Nat := 179769313486231580793728971405303415079934132710037826936173778980444968292764750946649017977587207096330286416692887910946555547851940402630657488671505820681908902000708383676273854845817711531764475730270069855571366959622842914819860834936475292719074168444365510704342711559699508093042880177904174497792

/-- Modelled from the source: whether `Number(token)` is a finite
double, decided exactly on the token's rational value. -/
def finiteNumericTok (cs : Chars) : Bool :=
  let p := splitNumTok cs
  let m := natOfDigits (p.2.1 ++ p.2.2.1)
  let ee : Int := p.2.2.2 - (p.2.2.1.length : Int)
  if 0 ≤ ee then decide (m * 10 ^ ee.toNat < doubleOverflowBound)
  else decide (m < doubleOverflowBound * 10 ^ ((-ee).toNat))

/-- Modelled from the source: `isNumericLiteral(token)` is true when the
token matches the numeric grammar and converts to a finite double. -/
def isNumericLiteral (cs : Chars) : Bool :=
  matchesNumericGrammar cs && finiteNumericTok cs

/-- Strip factors of ten from a mantissa while the scale is positive,
canonicalizing an exact decimal.  The fuel starts at the scale. -/
def stripTenFactors : Nat → Nat → Nat → Nat × Nat
  | 0, m, s => (m, s)
  | fuel + 1, m, s =>
    if s = 0 ∨ m % 10 ≠ 0 then (m, s)
    else stripTenFactors fuel (m / 10) (s - 1)

/-- Exact decimal value of a numeric token, in canonical form. -/
def numericValueC (cs : Chars) : DecNum :=
  let p := splitNumTok cs
  let m := natOfDigits (p.2.1 ++ p.2.2.1)
  let ee : Int := p.2.2.2 - (p.2.2.1.length : Int)
  let mv : Nat × Nat :=
    if 0 ≤ ee then (m * 10 ^ ee.toNat, 0)
    else stripTenFactors ((-ee).toNat) m ((-ee).toNat)
  if p.1 then ⟨-(mv.1 : Int), mv.2⟩ else ⟨(mv.1 : Int), mv.2⟩

/-! ## Quoted-string unescaping -/

/-- Hexadecimal digit value. -/
def hexVal (c : Char) : Option Nat :=
  if isDigitC c then some (digitVal c)
  else if decide ('a' ≤ c ∧ c ≤ 'f') then some (c.toNat - 97 + 10)
  else if decide ('A' ≤ c ∧ c ≤ 'F') then some (c.toNat - 65 + 10)
  else none

/-- Modelled from the spec: decode the body of a double-quoted string
after the opening quote.  Supported escapes are those of section 4.2
(dquote, backslash, n, r, t, b, f, slash, uXXXX); anything else is a
`BadEscape`; a missing closing quote is an `UnterminatedString`.
Returns the decoded content and the remainder after the closing quote. -/
def unescapeAux : Chars → Chars → Except DErr (Chars × Chars)
  | [], _ => .error .unterminatedString
  | c :: rest, acc =>
    if c = quoteChar then .ok (acc.reverse, rest)
    else if c = '\\' then
      match rest with
      | [] => .error .unterminatedString
      | e :: rest2 =>
        if e = quoteChar then unescapeAux rest2 (quoteChar :: acc)
        else if e = '\\' then unescapeAux rest2 ('\\' :: acc)
        else if e = 'n' then unescapeAux rest2 ('\n' :: acc)
        else if e = 'r' then unescapeAux rest2 ('\r' :: acc)
        else if e = 't' then unescapeAux rest2 ('\t' :: acc)
        else if e = 'b' then unescapeAux rest2 (Char.ofNat 8 :: acc)
        else if e = 'f' then unescapeAux rest2 (Char.ofNat 12 :: acc)
        else if e = '/' then unescapeAux rest2 ('/' :: acc)
        else if e = 'u' then
          match rest2 with
          | h1 :: h2 :: h3 :: h4 :: rest3 =>
            match hexVal h1, hexVal h2, hexVal h3, hexVal h4 with
            | some a, some b, some c2, some d =>
                unescapeAux rest3 (Char.ofNat (((a * 16 + b) * 16 + c2) * 16 + d) :: acc)
            | _, _, _, _ => .error .badEscape
          | _ => .error .badEscape
        else .error .badEscape
    else unescapeAux rest (c :: acc)

/-- Modelled from the spec: `parseScalar(token)` of section 4.5.
Quoted tokens decode their escapes and are strings; otherwise a token is
a number when `isNumericLiteral` accepts it, a boolean or null when it
is exactly one of the literals, and a raw string otherwise. -/
def parseScalar (tok : Chars) : Except DErr Prim :=
  match tok with
  | [] => .ok (.str "")
  | c :: rest =>
    if c = quoteChar then
      match unescapeAux rest [] with
      | .ok (content, []) => .ok (.str (String.mk content))
      | .ok (_, _ :: _) => .error .malformedHeader
      | .error e => .error e
    else
      if isNumericLiteral (c :: rest) then .ok (.num (numericValueC (c :: rest)))
      else if (c :: rest) = ("true".data) then .ok (.boolean true)
      else if (c :: rest) = ("false".data) then .ok (.boolean false)
      else if (c :: rest) = ("null".data) then .ok (.null)
      else .ok (.str (String.mk (c :: rest)))

/-! ## Line parser front-end (section 4.4 of the spec) -/

/-- Modelled from the spec: locate the first unquoted `:` of a line's
content that is not inside `[...]` or `{...}` brackets.  The extra
boolean arguments track a pending escape and whether the scanner is
inside a quoted string; the `Nat` tracks bracket depth.  Returns the
content before the colon and the remainder after it. -/
def scanColonAux : Chars → Bool → Bool → Nat → Chars → Option (Chars × Chars)
  | [], _, _, _, _ => none
  | c :: rest, esc, inQ, depth, acc =>
    if esc then scanColonAux rest false true depth (c :: acc)
    else if inQ then
      if c = '\\' then scanColonAux rest true true depth (c :: acc)
      else if c = quoteChar then scanColonAux rest false false depth (c :: acc)
      else scanColonAux rest false true depth (c :: acc)
    else if c = quoteChar then scanColonAux rest false true depth (c :: acc)
    else if c = '[' ∨ c = lbraceChar then scanColonAux rest false false (depth + 1) (c :: acc)
    else if c = ']' ∨ c = rbraceChar then scanColonAux rest false false (depth - 1) (c :: acc)
    else if c = ':' ∧ depth = 0 then some (acc.reverse, rest)
    else scanColonAux rest false false depth (c :: acc)

/-- Locate the header terminator of a line's content. -/
def scanColon (cs : Chars) : Option (Chars × Chars) :=
  scanColonAux cs false false 0 []

/-- Modelled from the spec: split a run of cells at every unquoted
occurrence of the delimiter. -/
def splitCellsAux (d : Char) : Chars → Bool → Bool → Chars → List Chars
  | [], _, _, acc => [acc.reverse]
  | c :: rest, esc, inQ, acc =>
    if esc then splitCellsAux d rest false true (c :: acc)
    else if inQ then
      if c = '\\' then splitCellsAux d rest true true (c :: acc)
      else if c = quoteChar then splitCellsAux d rest false false (c :: acc)
      else splitCellsAux d rest false true (c :: acc)
    else if c = quoteChar then splitCellsAux d rest false true (c :: acc)
    else if c = d then acc.reverse :: splitCellsAux d rest false false []
    else splitCellsAux d rest false false (c :: acc)

/-- Split a run of cells by the active delimiter, outside quotes. -/
def splitCells (d : Char) (cs : Chars) : List Chars :=
  splitCellsAux d cs false false []

/-- Modelled from the spec: the delimiter of an inline primitive array
or a field list is declared implicitly by the first unquoted occurrence
of one of the three delimiter characters. -/
def detectDelimAux : Chars → Bool → Bool → Option Char
  | [], _, _ => none
  | c :: rest, esc, inQ =>
    if esc then detectDelimAux rest false true
    else if inQ then
      if c = '\\' then detectDelimAux rest true true
      else if c = quoteChar then detectDelimAux rest false false
      else detectDelimAux rest false true
    else if c = quoteChar then detectDelimAux rest false true
    else if c = ',' ∨ c = '\t' ∨ c = '|' then some c
    else detectDelimAux rest false false

/-- The active delimiter observed in a run of cells (default comma). -/
def detectDelim (cs : Chars) : Char :=
  (detectDelimAux cs false false).getD ','

/-- Cells are trimmed only when the delimiter is comma or pipe; around a
tab no trimming occurs (section 4.4). -/
def trimCell (d : Char) (cs : Chars) : Chars :=
  if d = ',' ∨ d = '|' then trimSpaces cs else cs

/-- An array header clause: declared length, optional tabular field list
(field names with their quoting flags) and its declared delimiter. -/
structure ArrayHeaderInfo where
  len : Nat
  fields : Option (List (String × Bool) × Char)
deriving DecidableEq

/-- The shape of one line's content after locating the header
terminator (section 4.4): a bare token without a colon, a key-value
line, or an array header (whose key is absent for a root array). -/
inductive LineShape where
  | bare (token : Chars)
  | keyVal (key : String × Bool) (after : Chars)
  | arrayHeader (key : Option (String × Bool)) (info : ArrayHeaderInfo) (after : Chars)
deriving DecidableEq

/-- Scan a field list for the content before its unquoted closing brace
and the remainder after it. -/
def takeUntilRBrace : Chars → Bool → Bool → Chars → Option (Chars × Chars)
  | [], _, _, _ => none
  | c :: rest, esc, inQ, acc =>
    if esc then takeUntilRBrace rest false true (c :: acc)
    else if inQ then
      if c = '\\' then takeUntilRBrace rest true true (c :: acc)
      else if c = quoteChar then takeUntilRBrace rest false false (c :: acc)
      else takeUntilRBrace rest false true (c :: acc)
    else if c = quoteChar then takeUntilRBrace rest false true (c :: acc)
    else if c = rbraceChar then some (acc.reverse, rest)
    else takeUntilRBrace rest false false (c :: acc)

/-- Parse one field name of a tabular header: quoted or bare. -/
def parseFieldName (cs : Chars) : Except DErr (String × Bool) :=
  match cs with
  | c :: rest =>
    if c = quoteChar then
      match unescapeAux rest [] with
      | .ok (content, []) => .ok (String.mk content, true)
      | .ok (_, _ :: _) => .error .malformedHeader
      | .error e => .error e
    else .ok (String.mk (c :: rest), false)
  | [] => .ok ("", false)

/-- Modelled from the spec: parse the bracket clause of a header,
`("[" N "]")? ("{" F1 D F2 ... "}")?`, after the key. -/
def parseBracketPart (cs : Chars) : Except DErr (Option ArrayHeaderInfo) :=
  match cs with
  | [] => .ok none
  | '[' :: rest =>
    let ds := rest.takeWhile isDigitC
    let rem := rest.dropWhile isDigitC
    if ds.isEmpty then .error .malformedHeader
    else
      match rem with
      | ']' :: rem2 =>
        (match rem2 with
         | [] => .ok (some ⟨natOfDigits ds, none⟩)
         | c :: rem3 =>
           if c = lbraceChar then
             match takeUntilRBrace rem3 false false [] with
             | some (inside, []) =>
               let d := detectDelim inside
               let cells := (splitCells d inside).map (trimCell d)
               match cells.mapM parseFieldName with
               | .ok fs => .ok (some ⟨natOfDigits ds, some (fs, d)⟩)
               | .error e => .error e
             | some (_, _ :: _) => .error .malformedHeader
             | none => .error .malformedHeader
           else .error .malformedHeader)
      | _ => .error .malformedHeader
  | _ => .error .malformedHeader

/-- Modelled from the spec: parse the header part of a line (everything
before the unquoted colon) into its key and optional bracket clause.
The key is absent when the header starts at `[` (root-array header);
an empty header part is malformed. -/
def parseHeaderPart (before : Chars) : Except DErr (Option (String × Bool) × Option ArrayHeaderInfo) :=
  match before with
  | [] => .error .malformedHeader
  | c :: rest =>
    if c = quoteChar then
      match unescapeAux rest [] with
      | .ok (content, rem) =>
        match parseBracketPart rem with
        | .ok info => .ok (some (String.mk content, true), info)
        | .error e => .error e
      | .error e => .error e
    else if c = '[' then
      match parseBracketPart before with
      | .ok info => .ok (none, info)
      | .error e => .error e
    else
      let keyC := before.takeWhile (fun ch => ¬ (ch = '[' ∨ ch = lbraceChar))
      let rem := before.dropWhile (fun ch => ¬ (ch = '[' ∨ ch = lbraceChar))
      match parseBracketPart rem with
      | .ok info => .ok (some (String.mk keyC, false), info)
      | .error e => .error e

/-- Modelled from the spec: classify one line's content as a bare
token, a key-value line, or an array header. -/
def parseContent (content : Chars) : Except DErr LineShape :=
  match scanColon content with
  | none => .ok (.bare content)
  | some (before, after) =>
    match parseHeaderPart before with
    | .ok (some k, none) => .ok (.keyVal k after)
    | .ok (key, some info) => .ok (.arrayHeader key info after)
    | .ok (none, none) => .error .malformedHeader
    | .error e => .error e

/-- Modelled from the spec: split a raw line into its indentation and
content.  Tabs as indentation are rejected; in strict mode the leading
spaces must be a multiple of the indent width (section 4.4). -/
def parsePLine (opts : DecodeOptions) (line : String) : Except DErr (Nat × Chars) :=
  let cs := line.data
  let ind := countLeadingSpaces cs
  let content := dropLeadingSpaces cs
  match content with
  | '\t' :: _ => .error .indentationError
  | _ =>
    if opts.strict = true ∧ opts.indent ≠ 0 ∧ ind % opts.indent ≠ 0 then
      .error .indentationError
    else .ok (ind, content)

/-! ## Structural decoder (section 4.5 of the spec)

The decoder walks the parsed lines with an explicit indent column and
emits the event stream.  The `fuel` argument bounds the recursion depth;
the driver supplies fuel larger than any reachable depth, so running out
of fuel is unreachable. -/

/-- A parsed line: indentation column and content. -/
abbrev PLine := Nat × Chars

/-- One pending activity of the structural decoder: parsing an object
body, a single key line, an array body, the entries of a list array, or
the rows of a tabular array.  A single fueled interpreter over these
calls keeps the recursion structural on the fuel. -/
inductive PCall where
  | objBody (col : Nat)
  | keyLine (col : Nat) (shape : LineShape)
  | arrayBody (col : Nat) (info : ArrayHeaderInfo) (after : Chars)
  | listItems (col : Nat)
  | tabRows (col : Nat) (fs : List (String × Bool)) (d : Char)

/-- Modelled from the spec: the driver of the structural decoder
(section 4.5), a fueled interpreter over pending parser activities.
The result carries an entry count (meaningful for list entries and
tabular rows), the emitted events, and the remaining lines.
The fuel only bounds the recursion depth; the public entry point
supplies more fuel than any reachable depth.

Transitions (section 4.5):
an object body consumes key lines at its column until a shallower line
or the end of input, and rejects deeper lines; `K: VALUE` emits the key
and a primitive; `K:` alone opens a nested object when the next line is
deeper and an empty object otherwise; `K[N]...:` hands over to the
array parser; a line without a colon or with a keyless header inside an
object is malformed.  An array with inline values after the colon
splits them by the observed delimiter; an empty remainder selects the
empty, tabular or list form.  In strict mode an entry or row count
differing from the declared length is a `LengthMismatch` and a tabular
cell count differing from the field count is a `DelimiterMismatch`;
lenient mode accepts the actual counts.  A list entry's payload after
the dash is re-parsed as an inline value, a header opening a nested
value, or the first key-value of an object entry whose remaining keys
sit at the dash column plus two. -/
def runP : Nat → DecodeOptions → PCall → List PLine → Except DErr (Nat × List Event × List PLine)
  | 0, _, _, _ => .error .incompleteStream
  | fuel + 1, opts, call, lines =>
    match call with
    | .objBody col =>
      match lines with
      | [] => .ok (0, [], [])
      | (ind, content) :: rest =>
        if ind < col then .ok (0, [], (ind, content) :: rest)
        else if col < ind then .error .indentationError
        else
          match parseContent content with
          | .error e => .error e
          | .ok shape =>
            match runP fuel opts (.keyLine col shape) rest with
            | .error e => .error e
            | .ok (_, evs1, rem) =>
              match runP fuel opts (.objBody col) rem with
              | .error e => .error e
              | .ok (_, evs2, rem2) => .ok (0, evs1 ++ evs2, rem2)
    | .keyLine col shape =>
      match shape with
      | .bare _ => .error .malformedHeader
      | .arrayHeader none _ _ => .error .malformedHeader
      | .keyVal (k, wq) after =>
        let tok := trimSpaces after
        if tok.isEmpty then
          match lines with
          | (ind2, c2) :: rest2 =>
            if col < ind2 then
              match runP fuel opts (.objBody (col + opts.indent)) ((ind2, c2) :: rest2) with
              | .error e => .error e
              | .ok (_, evs, rem) =>
                .ok (0, [.key k wq, .startObject] ++ evs ++ [.endObject], rem)
            else .ok (0, [.key k wq, .startObject, .endObject], (ind2, c2) :: rest2)
          | [] => .ok (0, [.key k wq, .startObject, .endObject], [])
        else
          match parseScalar tok with
          | .error e => .error e
          | .ok p => .ok (0, [.key k wq, .primitive p], lines)
      | .arrayHeader (some (k, wq)) info after =>
        match runP fuel opts (.arrayBody col info after) lines with
        | .error e => .error e
        | .ok (_, evs, rem) => .ok (0, .key k wq :: evs, rem)
    | .arrayBody col info after =>
      let tok := trimSpaces after
      if tok.isEmpty then
        if info.len = 0 then .ok (0, [.startArray 0, .endArray], lines)
        else
          match info.fields with
          | some (fs, d) =>
            match runP fuel opts (.tabRows (col + opts.indent) fs d) lines with
            | .error e => .error e
            | .ok (cnt, evs, rem) =>
              if opts.strict = true ∧ cnt ≠ info.len then .error .lengthMismatch
              else .ok (0, [.startArray info.len] ++ evs ++ [.endArray], rem)
          | none =>
            match runP fuel opts (.listItems (col + opts.indent)) lines with
            | .error e => .error e
            | .ok (cnt, evs, rem) =>
              if opts.strict = true ∧ cnt ≠ info.len then .error .lengthMismatch
              else .ok (0, [.startArray info.len] ++ evs ++ [.endArray], rem)
      else
        match info.fields with
        | some _ => .error .malformedHeader
        | none =>
          let d := detectDelim tok
          let cells := (splitCells d tok).map (trimCell d)
          match cells.mapM parseScalar with
          | .error e => .error e
          | .ok prims =>
            if opts.strict = true ∧ cells.length ≠ info.len then .error .lengthMismatch
            else .ok (0, [.startArray info.len] ++ prims.map .primitive ++ [.endArray], lines)
    | .listItems col =>
      match lines with
      | [] => .ok (0, [], [])
      | (ind, content) :: rest =>
        if ind ≠ col then .ok (0, [], (ind, content) :: rest)
        else
          match content with
          | '-' :: tail =>
            let payload := match tail with
              | ' ' :: t => t
              | t => t
            if tail.isEmpty ∨ tail.headD ' ' = ' ' then
              match parseContent payload with
              | .error e => .error e
              | .ok shape =>
                let entry : Except DErr (List Event × List PLine) :=
                  match shape with
                  | .bare tok =>
                    (match parseScalar (trimSpaces tok) with
                     | .error e => .error e
                     | .ok p => .ok ([.primitive p], rest))
                  | .arrayHeader none info after =>
                    (match runP fuel opts (.arrayBody (col + 2) info after) rest with
                     | .error e => .error e
                     | .ok (_, evs, rem) => .ok (evs, rem))
                  | _ =>
                    (match runP fuel opts (.objBody (col + 2)) ((col + 2, payload) :: rest) with
                     | .error e => .error e
                     | .ok (_, evs, rem) => .ok (.startObject :: evs ++ [.endObject], rem))
                match entry with
                | .error e => .error e
                | .ok (evs1, rem) =>
                  match runP fuel opts (.listItems col) rem with
                  | .error e => .error e
                  | .ok (cnt, evs2, rem2) => .ok (cnt + 1, evs1 ++ evs2, rem2)
            else .error .malformedHeader
          | _ => .error .malformedHeader
    | .tabRows col fs d =>
      match lines with
      | [] => .ok (0, [], [])
      | (ind, content) :: rest =>
        if ind ≠ col then .ok (0, [], (ind, content) :: rest)
        else
          let cells := (splitCells d content).map (trimCell d)
          if opts.strict = true ∧ cells.length ≠ fs.length then .error .delimiterMismatch
          else
            match cells.mapM parseScalar with
            | .error e => .error e
            | .ok prims =>
              let rowEvs := (fs.zip prims).flatMap
                (fun fp => [Event.key fp.1.1 fp.1.2, Event.primitive fp.2])
              match runP fuel opts (.tabRows col fs d) rest with
              | .error e => .error e
              | .ok (cnt, evs2, rem) =>
                .ok (cnt + 1, (.startObject :: rowEvs ++ [.endObject]) ++ evs2, rem)

/-- Parse the body of an object whose keys sit at the given column. -/
def parseObjBody (fuel : Nat) (opts : DecodeOptions) (col : Nat)
    (lines : List PLine) : Except DErr (Nat × List Event × List PLine) :=
  runP fuel opts (.objBody col) lines

/-- Parse an array given its header clause and inline remainder. -/
def parseArrayBody (fuel : Nat) (opts : DecodeOptions) (col : Nat)
    (info : ArrayHeaderInfo) (after : Chars) (lines : List PLine) :
    Except DErr (Nat × List Event × List PLine) :=
  runP fuel opts (.arrayBody col info after) lines

/-- Modelled from the spec: the core event decoder over parsed lines.
Empty input decodes to an empty object; a keyless header at the root
opens a root array; a sole line without a colon is a root primitive;
otherwise the lines form a root object. -/
def decodeCoreEvents (lines : List String) (opts : DecodeOptions) :
    Except DErr (List Event) :=
  match lines.mapM (parsePLine opts) with
  | .error e => .error e
  | .ok plines =>
    match plines with
    | [] => .ok [.startObject, .endObject]
    | (ind, content) :: rest =>
      if ind ≠ 0 then .error .indentationError
      else
        let fuel := 8 * plines.length + 16
        match parseContent content with
        | .error e => .error e
        | .ok (.bare tok) =>
          match rest with
          | [] =>
            match parseScalar (trimSpaces tok) with
            | .error e => .error e
            | .ok p => .ok [.primitive p]
          | _ => .error .malformedHeader
        | .ok (.arrayHeader none info after) =>
          match parseArrayBody fuel opts 0 info after rest with
          | .error e => .error e
          | .ok (_, evs, rem) =>
            if rem.isEmpty then .ok evs else .error .malformedHeader
        | .ok _ =>
          match parseObjBody fuel opts 0 ((ind, content) :: rest) with
          | .error e => .error e
          | .ok (_, evs, rem) =>
            if rem.isEmpty then .ok ([.startObject] ++ evs ++ [.endObject])
            else .error .indentationError

/-- Modelled from the spec: `decodeStreamSync(lines, options?)` rejects
`expandPaths` with an error (`UnsupportedOption`) and otherwise yields
the event stream of the core decoder. -/
def decodeStreamSync (lines : List String) (opts : DecodeOptions) :
    Except DErr (List Event) :=
  if opts.expandPaths = .safe then .error .unsupportedOption
  else decodeCoreEvents lines opts

/-! ## Value builder (section 4.6 of the spec) -/

/-- One pending activity of the value builder: building a value, the
fields of an object, or the elements of an array. -/
inductive BCall where
  | val
  | objFs
  | arrEls

/-- The intermediate result of a builder activity. -/
inductive BOut where
  | v (j : Json)
  | fs (l : List (String × Json))
  | els (l : List Json)

/-- Modelled from the spec: the value builder (section 4.6), a fueled
interpreter that reconstructs a value from the front of an event
stream, returning the remainder.  A stream ending mid-value fails with
`IncompleteStream`.  The fuel only bounds the recursion depth; the
public entry point supplies more fuel than any reachable depth. -/
def runBuild : Nat → BCall → List Event → Except DErr (BOut × List Event)
  | 0, _, _ => .error .incompleteStream
  | fuel + 1, call, events =>
    match call with
    | .val =>
      match events with
      | .primitive p :: rest => .ok (.v (.prim p), rest)
      | .startObject :: rest =>
        (match runBuild fuel .objFs rest with
         | .ok (.fs l, rem) => .ok (.v (.obj l), rem)
         | .ok (_, _) => .error .incompleteStream
         | .error e => .error e)
      | .startArray _ :: rest =>
        (match runBuild fuel .arrEls rest with
         | .ok (.els l, rem) => .ok (.v (.arr l), rem)
         | .ok (_, _) => .error .incompleteStream
         | .error e => .error e)
      | _ => .error .incompleteStream
    | .objFs =>
      match events with
      | .endObject :: rest => .ok (.fs [], rest)
      | .key k _ :: rest =>
        (match runBuild fuel .val rest with
         | .ok (.v j, rem) =>
           (match runBuild fuel .objFs rem with
            | .ok (.fs l, rem2) => .ok (.fs ((k, j) :: l), rem2)
            | .ok (_, _) => .error .incompleteStream
            | .error e => .error e)
         | .ok (_, _) => .error .incompleteStream
         | .error e => .error e)
      | _ => .error .incompleteStream
    | .arrEls =>
      match events with
      | .endArray :: rest => .ok (.els [], rest)
      | evs =>
        (match runBuild fuel .val evs with
         | .ok (.v j, rem) =>
           (match runBuild fuel .arrEls rem with
            | .ok (.els l, rem2) => .ok (.els (j :: l), rem2)
            | .ok (_, _) => .error .incompleteStream
            | .error e => .error e)
         | .ok (_, _) => .error .incompleteStream
         | .error e => .error e)

/-- Modelled from the spec: `buildValueFromEvents` materializes the
value of an event stream (no path expansion). -/
def buildValueFromEvents (events : List Event) : Except DErr Json :=
  match runBuild (2 * events.length + 4) .val events with
  | .error e => .error e
  | .ok (.v j, _) => .ok j
  | .ok (_, _) => .error .incompleteStream

/-! ## Path expansion (section 4.6 of the spec) -/

/-- Split a key string at every dot. -/
def splitDots (cs : Chars) : List String :=
  (splitCellsAux '.' cs false false []).map String.mk

/-- Modelled from the spec: keys containing `.` are split at every dot;
a quoted key is never split. -/
def splitKeyPath (k : String) (wasQuoted : Bool) : List String :=
  if wasQuoted then [k] else splitDots k.data

/-- Wrap a value into a chain of single-key objects along a path. -/
def nestPath : List String → Json → Json
  | [], v => v
  | k :: rest, v => .obj [(k, nestPath rest v)]

mutual

/-- Structural size of a value, used to bound the encoder's fuel. -/
def jsonSize : Json → Nat
  | .prim _ => 1
  | .arr xs => 1 + jsonSizeL xs
  | .obj fs => 1 + jsonSizeF fs

/-- Structural size of a list of values. -/
def jsonSizeL : List Json → Nat
  | [] => 0
  | x :: xs => 1 + jsonSize x + jsonSizeL xs

/-- Structural size of a list of fields. -/
def jsonSizeF : List (String × Json) → Nat
  | [] => 0
  | (_, v) :: fs => 1 + jsonSize v + jsonSizeF fs

end

/-- One pending activity of the expansion merge: merging two values,
merging a list of new fields into existing fields, or inserting one
key-value pair into existing fields. -/
inductive MCall where
  | mv (old g : Json)
  | mfs (fs gs : List (String × Json))
  | mins (fs : List (String × Json)) (k : String) (g : Json)

/-- The intermediate result of a merge activity. -/
inductive MOut where
  | v (j : Json)
  | fs (l : List (String × Json))

/-- Modelled from the spec: the conflict-resolving merge of path
expansion (section 4.6), as a fueled interpreter.  Object with object
merges recursively, key by key; object with a non-object (either way
round) is an `ExpansionConflict` in strict mode and last-write-wins in
lenient mode; non-object with non-object is last-write-wins in both
modes.  Inserting a fresh key appends it, preserving order.  The fuel
only bounds the recursion depth; the wrappers supply more fuel than any
reachable depth. -/
def runMerge : Nat → Bool → MCall → Except DErr MOut
  | 0, _, _ => .error .incompleteStream
  | fuel + 1, strict, call =>
    match call with
    | .mv (.obj fs) (.obj gs) =>
      (match runMerge fuel strict (.mfs fs gs) with
       | .ok (.fs l) => .ok (.v (.obj l))
       | .ok _ => .error .incompleteStream
       | .error e => .error e)
    | .mv (.obj _) other => if strict then .error .expansionConflict else .ok (.v other)
    | .mv _ (.obj gs) => if strict then .error .expansionConflict else .ok (.v (.obj gs))
    | .mv _ other => .ok (.v other)
    | .mfs fs [] => .ok (.fs fs)
    | .mfs fs ((k, g) :: gs) =>
      (match runMerge fuel strict (.mins fs k g) with
       | .ok (.fs fs2) => runMerge fuel strict (.mfs fs2 gs)
       | .ok _ => .error .incompleteStream
       | .error e => .error e)
    | .mins [] k g => .ok (.fs [(k, g)])
    | .mins ((k2, old) :: rest) k g =>
      if k2 = k then
        (match runMerge fuel strict (.mv old g) with
         | .ok (.v m) => .ok (.fs ((k2, m) :: rest))
         | .ok _ => .error .incompleteStream
         | .error e => .error e)
      else
        (match runMerge fuel strict (.mins rest k g) with
         | .ok (.fs rest2) => .ok (.fs ((k2, old) :: rest2))
         | .ok _ => .error .incompleteStream
         | .error e => .error e)

/-- Insert one key-value pair into object fields with the given merge
fuel, merging with an existing entry of the same key and appending
otherwise. -/
def insertMergeOne (mfuel : Nat) (strict : Bool) (fs : List (String × Json))
    (k : String) (g : Json) : Except DErr (List (String × Json)) :=
  match runMerge mfuel strict (.mins fs k g) with
  | .ok (.fs l) => .ok l
  | .ok _ => .error .incompleteStream
  | .error e => .error e

/-- Modelled from the spec: the value builder with inline path
expansion of dotted object keys (section 4.6), a fueled interpreter in
the style of `runBuild`.  The accumulator argument carries the fields
of the object under construction (meaningful for `objFs`): each key is
split into a path and its value is merged into the accumulator with
the given merge fuel. -/
def runBuildX : Nat → Nat → Bool → BCall → List (String × Json) → List Event →
    Except DErr (BOut × List Event)
  | 0, _, _, _, _, _ => .error .incompleteStream
  | fuel + 1, mfuel, strict, call, acc, events =>
    match call with
    | .val =>
      match events with
      | .primitive p :: rest => .ok (.v (.prim p), rest)
      | .startObject :: rest =>
        (match runBuildX fuel mfuel strict .objFs [] rest with
         | .ok (.fs l, rem) => .ok (.v (.obj l), rem)
         | .ok (_, _) => .error .incompleteStream
         | .error e => .error e)
      | .startArray _ :: rest =>
        (match runBuildX fuel mfuel strict .arrEls [] rest with
         | .ok (.els l, rem) => .ok (.v (.arr l), rem)
         | .ok (_, _) => .error .incompleteStream
         | .error e => .error e)
      | _ => .error .incompleteStream
    | .objFs =>
      match events with
      | .endObject :: rest => .ok (.fs acc, rest)
      | .key k wq :: rest =>
        (match runBuildX fuel mfuel strict .val [] rest with
         | .ok (.v j, rem) =>
           (match splitKeyPath k wq with
            | [] => .error .malformedHeader
            | seg :: segs =>
              match insertMergeOne mfuel strict acc seg (nestPath segs j) with
              | .error e => .error e
              | .ok acc2 => runBuildX fuel mfuel strict .objFs acc2 rem)
         | .ok (_, _) => .error .incompleteStream
         | .error e => .error e)
      | _ => .error .incompleteStream
    | .arrEls =>
      match events with
      | .endArray :: rest => .ok (.els [], rest)
      | evs =>
        (match runBuildX fuel mfuel strict .val [] evs with
         | .ok (.v j, rem) =>
           (match runBuildX fuel mfuel strict .arrEls [] rem with
            | .ok (.els l, rem2) => .ok (.els (j :: l), rem2)
            | .ok (_, _) => .error .incompleteStream
            | .error e => .error e)
         | .ok (_, _) => .error .incompleteStream
         | .error e => .error e)

/-- Total length of the keys occurring in an event stream, used to
bound the merge fuel of path expansion. -/
def keyLenSum (events : List Event) : Nat :=
  events.foldl
    (fun a e => match e with
      | .key k _ => a + k.length
      | _ => a) 0

/-- Modelled from the spec: materialize an event stream with path
expansion (`expandPaths: 'safe'`).  The merge fuel dominates the depth
of any merge arising from the stream's keys and values. -/
def buildValueExpanded (strict : Bool) (events : List Event) : Except DErr Json :=
  let s := keyLenSum events + 2 * events.length + 8
  match runBuildX (2 * events.length + 4) (4 * s * s) strict .val [] events with
  | .error e => .error e
  | .ok (.v j, _) => .ok j
  | .ok (_, _) => .error .incompleteStream

/-! ## Public decode surface (section 6 of the spec) -/

/-- Modelled from the spec: `decodeFromLines(lines, options?)`
materializes events via the builder and applies path expansion if
requested. -/
def decodeFromLines (lines : List String) (opts : DecodeOptions) : Except DErr Json :=
  match opts.expandPaths with
  | .off =>
    (match decodeCoreEvents lines opts with
     | .error e => .error e
     | .ok evs => buildValueFromEvents evs)
  | .safe =>
    (match decodeCoreEvents lines opts with
     | .error e => .error e
     | .ok evs => buildValueExpanded opts.strict evs)

/-- Split a character sequence at every line feed. -/
def splitLinesC : Chars → List Chars
  | [] => [[]]
  | c :: rest =>
    if c = '\n' then [] :: splitLinesC rest
    else
      match splitLinesC rest with
      | l :: ls => (c :: l) :: ls
      | [] => [[c]]

/-- A final empty line is ignored when decoding a joined text. -/
def dropFinalEmptyC : List Chars → List Chars
  | [] => []
  | l :: rest =>
    match rest with
    | [] => if l.isEmpty then [] else [l]
    | r :: rs => l :: dropFinalEmptyC (r :: rs)

/-- Modelled from the spec: `decode(text, options?)` splits the text on
LF (ignoring a final empty line) and delegates to `decodeFromLines`. -/
def decode (text : String) (opts : DecodeOptions) : Except DErr Json :=
  decodeFromLines ((dropFinalEmptyC (splitLinesC text.data)).map String.mk) opts

/-- Join lines with LF separators (the caller-side inverse of the
split performed by `decode`). -/
def joinChars : List Chars → Chars
  | [] => []
  | l :: ls =>
    match ls with
    | [] => l
    | m :: ms => l ++ '\n' :: joinChars (m :: ms)

/-- LF-join a list of lines into a single text. -/
def joinLF (lines : List String) : String :=
  String.mk (joinChars (lines.map String.data))

/-! ## Encoder (sections 4.2 and 4.3 of the spec) -/

/-- Spaces of a given width. -/
def spacesC (n : Nat) : Chars := List.replicate n ' '

/-- Escape one character of a quoted string (section 4.2). -/
def escapeCharC (c : Char) : Chars :=
  if c = quoteChar then ['\\', quoteChar]
  else if c = '\\' then ['\\', '\\']
  else if c = '\n' then ['\\', 'n']
  else if c = '\r' then ['\\', 'r']
  else if c = '\t' then ['\\', 't']
  else if c = Char.ofNat 8 then ['\\', 'b']
  else if c = Char.ofNat 12 then ['\\', 'f']
  else if c.toNat < 32 then
    let hexDigit := fun (n : Nat) =>
      if n < 10 then Char.ofNat (48 + n) else Char.ofNat (97 + n - 10)
    ['\\', 'u', hexDigit (c.toNat / 4096 % 16), hexDigit (c.toNat / 256 % 16),
     hexDigit (c.toNat / 16 % 16), hexDigit (c.toNat % 16)]
  else [c]

/-- Emit a string as a double-quoted, escaped token. -/
def quoteStringC (cs : Chars) : Chars :=
  quoteChar :: cs.foldr (fun c acc => escapeCharC c ++ acc) [quoteChar]

/-- Whitespace characters relevant to the quoting policy. -/
def isWSChar (c : Char) : Bool := c = ' ' ∨ c = '\t'

/-- Modelled from the spec (section 4.2): a string value must be quoted
when it is empty, begins or ends with whitespace, contains the active
delimiter or a structural character (colon, hash, quote, backslash,
square brackets, curly braces, LF, CR, TAB), begins with a dash, is one
of the literals `true`/`false`/`null`, or is a valid numeric literal. -/
def needsQuoting (cs : Chars) (delim : Char) : Bool :=
  cs.isEmpty ||
  isWSChar (cs.headD 'x') ||
  isWSChar (cs.getLastD 'x') ||
  cs.any (fun c =>
    c = delim ∨ c = ':' ∨ c = '#' ∨ c = quoteChar ∨ c = '\\' ∨
    c = '[' ∨ c = ']' ∨ c = lbraceChar ∨ c = rbraceChar ∨
    c = '\n' ∨ c = '\r' ∨ c = '\t') ||
  decide (cs.headD 'x' = '-' ∧ cs ≠ []) ||
  decide (cs = "true".data ∨ cs = "false".data ∨ cs = "null".data) ||
  isNumericLiteral cs

/-- Canonical decimal form of an exact decimal number: integers as
plain digit runs, fractions in positional notation without exponent;
`-0` emits as `0` (section 4.3). -/
def formatDecC (d : DecNum) : Chars :=
  let a := d.mant.natAbs
  let sign : Chars := if d.mant < 0 ∧ a ≠ 0 then ['-'] else []
  if d.scale = 0 then sign ++ (Nat.repr a).data
  else
    let intPart := a / 10 ^ d.scale
    let fracPart := a % 10 ^ d.scale
    let fracDigits := (Nat.repr (10 ^ d.scale + fracPart)).data.drop 1
    sign ++ (Nat.repr intPart).data ++ '.' :: fracDigits

/-- Emit a primitive value as its literal token (section 4.3). -/
def encodePrim (p : Prim) (delim : Char) : Chars :=
  match p with
  | .str s => if needsQuoting s.data delim then quoteStringC s.data else s.data
  | .num d => formatDecC d
  | .boolean true => "true".data
  | .boolean false => "false".data
  | .null => "null".data

/-- Emit an object key, quoting when the string quoting policy demands
it or when the key contains a dot (section 4.2). -/
def encodeKeyC (k : String) (delim : Char) : Chars :=
  if needsQuoting k.data delim || k.data.contains '.' then quoteStringC k.data
  else k.data

/-- A key is foldable when it contains no dot, no whitespace, and no
character requiring quoting (section 4.3). -/
def foldableKey (k : String) (delim : Char) : Bool :=
  !(needsQuoting k.data delim) && !(k.data.contains '.') && !(k.data.any isWSChar)

/-- Whether a value is an empty array (folding never targets one). -/
def isEmptyArr : Json → Bool
  | .arr [] => true
  | _ => false

/-- Whether a chain may grow to the given length under `flattenDepth`. -/
def withinDepth (d : Option Nat) (n : Nat) : Bool :=
  match d with
  | none => true
  | some m => decide (n ≤ m)

/-- Modelled from the spec: collapse a chain of single-key objects into
the accumulated dotted path, stopping at the flatten depth, at a key
that is not foldable, or at an empty-array value (section 4.3). -/
def foldChain (d : Option Nat) (delim : Char) (acc : List String) : Json → List String × Json
  | .obj [(k2, v2)] =>
    if foldableKey k2 delim && !(isEmptyArr v2) && withinDepth d (acc.length + 1) then
      foldChain d delim (acc ++ [k2]) v2
    else (acc, .obj [(k2, v2)])
  | v => (acc, v)

/-- Whether a value is a primitive. -/
def isPrimJ : Json → Bool
  | .prim _ => true
  | _ => false

/-- The primitive of a value, defaulting to null. -/
def primOf : Json → Prim
  | .prim p => p
  | _ => .null

/-- The key list of an object row, when the row is a non-empty object
with all-primitive values (tabular eligibility, section 4.3). -/
def rowKeysIfTabular : Json → Option (List String)
  | .obj fs =>
    if fs.isEmpty then none
    else if fs.all (fun kv => isPrimJ kv.2) then some (fs.map Prod.fst)
    else none
  | _ => none

/-- Whether every element is a non-empty object with the same key list
as the first row and only primitive leaf values. -/
def tabularKeys (xs : List Json) : Option (List String) :=
  match xs with
  | [] => none
  | x :: rest =>
    match rowKeysIfTabular x with
    | none => none
    | some ks =>
      if rest.all (fun r => rowKeysIfTabular r = some ks) then some ks else none

/-- The row cells of a tabular row in header-field order. -/
def rowCells (r : Json) : List Prim :=
  match r with
  | .obj fs => fs.map (fun kv => primOf kv.2)
  | _ => []

/-- One pending activity of the encoder: emitting the fields of an
object at a column, one key-value pair, an array body with an already
rendered key, or the dash entries of a list array. -/
inductive ECall where
  | fieldsAt (col : Nat) (fs : List (String × Json))
  | oneField (col : Nat) (k : String) (v : Json)
  | arrBody (col : Nat) (keyC : Chars) (xs : List Json)
  | entries (dashCol : Nat) (xs : List Json)

/-- Modelled from the spec: the line emitter of the encoder
(section 4.3), a fueled interpreter over pending encoder activities.
With key folding on, a chain of single-key objects collapses into one
dotted key.  The array form selector: empty arrays emit a bare `[0]:`
header; all-primitive arrays emit the inline form; uniform non-empty
objects with primitive leaves emit the tabular form; anything else
emits the list form.  A primitive list entry carries its literal on the
dash line; an object entry carries its first key-value on the dash line
with the remaining keys at the dash column plus two; an array entry
bears its header on the dash line with its body one level deeper.  The
fuel only bounds the recursion depth; the public entry point supplies
more fuel than any reachable depth. -/
def runEnc : Nat → EncodeOptions → ECall → List Chars
  | 0, _, _ => []
  | fuel + 1, opts, call =>
    match call with
    | .fieldsAt _ [] => []
    | .fieldsAt col ((k, v) :: rest) =>
      runEnc fuel opts (.oneField col k v) ++ runEnc fuel opts (.fieldsAt col rest)
    | .oneField col k v =>
      let folded : List String × Json :=
        if opts.keyFolding = .safe && foldableKey k opts.delimiter then
          foldChain opts.flattenDepth opts.delimiter [k] v
        else ([k], v)
      let keyC : Chars :=
        if folded.1.length ≥ 2 then (String.intercalate "." folded.1).data
        else encodeKeyC k opts.delimiter
      (match folded.2 with
       | .prim p => [spacesC col ++ keyC ++ ':' :: ' ' :: encodePrim p opts.delimiter]
       | .obj [] => [spacesC col ++ keyC ++ [':']]
       | .obj fs =>
         (spacesC col ++ keyC ++ [':']) :: runEnc fuel opts (.fieldsAt (col + opts.indent) fs)
       | .arr xs => runEnc fuel opts (.arrBody col keyC xs))
    | .arrBody col keyC xs =>
      let base := spacesC col ++ keyC ++ '[' :: (Nat.repr xs.length).data ++ [']']
      if xs.isEmpty then [base ++ [':']]
      else if xs.all isPrimJ then
        [base ++ ':' :: ' ' ::
          (List.intercalate [opts.delimiter]
            (xs.map (fun x => encodePrim (primOf x) opts.delimiter)))]
      else
        (match tabularKeys xs with
         | some ks =>
           let fieldsC := List.intercalate [opts.delimiter]
             (ks.map (fun f => encodeKeyC f opts.delimiter))
           let header := base ++ lbraceChar :: fieldsC ++ [rbraceChar, ':']
           header :: xs.map (fun r =>
             spacesC (col + opts.indent) ++
               List.intercalate [opts.delimiter]
                 ((rowCells r).map (fun p => encodePrim p opts.delimiter)))
         | none =>
           (base ++ [':']) :: runEnc fuel opts (.entries (col + opts.indent) xs))
    | .entries _ [] => []
    | .entries dashCol (x :: rest) =>
      let entryLines : List Chars :=
        match x with
        | .prim p => [spacesC dashCol ++ '-' :: ' ' :: encodePrim p opts.delimiter]
        | .obj [] => [spacesC dashCol ++ ['-']]
        | .obj fs =>
          (match runEnc fuel opts (.fieldsAt (dashCol + 2) fs) with
           | [] => [spacesC dashCol ++ ['-']]
           | l :: ls => (spacesC dashCol ++ '-' :: ' ' :: l.drop (dashCol + 2)) :: ls)
        | .arr ys =>
          (match runEnc fuel opts (.arrBody (dashCol + 2) [] ys) with
           | [] => [spacesC dashCol ++ ['-']]
           | l :: ls => (spacesC dashCol ++ '-' :: ' ' :: l.drop (dashCol + 2)) :: ls)
      entryLines ++ runEnc fuel opts (.entries dashCol rest)

/-- Modelled from the spec: `encodeLines(value, options?)` emits the
output lines of a value.  A root primitive is a single literal line; an
empty root object emits zero lines; a root array emits its header and
body without a key. -/
def encodeLines (v : Json) (opts : EncodeOptions) : List String :=
  let fuel := 4 * jsonSize v + 16
  (match v with
   | .prim p => [encodePrim p opts.delimiter]
   | .obj [] => []
   | .obj fs => runEnc fuel opts (.fieldsAt 0 fs)
   | .arr xs => runEnc fuel opts (.arrBody 0 [] xs)).map String.mk

/-- Modelled from the spec: `encode(value, options?)` is the LF-join of
`encodeLines`. -/
def encode (v : Json) (opts : EncodeOptions) : String :=
  joinLF (encodeLines v opts)

/-- Whether a scalar-parse result is a number. -/
def resultIsNumber : Except DErr Prim → Bool
  | .ok (.num _) => true
  | _ => false

/-! ## Claim theorems -/

/-- A token beginning with a double quote never matches the numeric
grammar. -/
theorem grammar_false_of_quote (rest : Chars) :
    matchesNumericGrammar (quoteChar :: rest) = false := by
  rw [matchesNumericGrammar.eq_def]
  split
  · rename_i heq
    exact absurd (List.head_eq_of_cons_eq heq) (by decide)
  · rw [matchIntRest.eq_def]
    split
    · rename_i heq
      exact absurd heq (by simp)
    · rename_i heq
      exact absurd (List.head_eq_of_cons_eq heq) (by decide)
    · rename_i heq
      have : isDigitC quoteChar = false := by decide
      obtain ⟨h1, -⟩ := List.cons_eq_cons.mp heq
      rw [← h1, this]
      simp

/-- C4: scalar parsing maps a token to a number exactly when the token
matches the numeric grammar `^-?(0|[1-9]\d*)(\.\d+)?([eE][+-]?\d+)?$`
and converts to a finite double; in particular tokens with leading
zeros such as `01` and `007` fail the grammar and are strings. -/
theorem scalar_number_iff_grammar_and_finite :
    (∀ tok : Chars, resultIsNumber (parseScalar tok) =
      (matchesNumericGrammar tok && finiteNumericTok tok)) ∧
    parseScalar ("01".data) = .ok (.str "01") ∧
    parseScalar ("007".data) = .ok (.str "007") := by
  refine ⟨fun tok => ?_, rfl, rfl⟩
  match tok with
  | [] => rfl
  | c :: rest =>
    by_cases hq : c = quoteChar
    · subst hq
      rw [grammar_false_of_quote]
      simp only [Bool.false_and]
      rw [parseScalar]
      simp only [if_pos rfl]
      rcases hu : unescapeAux rest [] with e | ⟨content, rem⟩
      · rfl
      · cases rem <;> rfl
    · rw [parseScalar]
      rw [if_neg hq]
      by_cases hn : isNumericLiteral (c :: rest) = true
      · rw [if_pos hn]
        rw [isNumericLiteral] at hn
        rw [hn]
        rfl
      · rw [if_neg hn]
        rw [isNumericLiteral] at hn
        rw [Bool.not_eq_true] at hn
        rw [hn]
        split <;> rename_i h1
        · rfl
        · split <;> rename_i h2
          · rfl
          · split <;> rfl

/-- Splitting a line-feed-free character sequence yields it unchanged. -/
theorem splitLinesC_no_lf (l : Chars) (h : ('\n' : Char) ∉ l) :
    splitLinesC l = [l] := by
  induction l with
  | nil => rfl
  | cons c cs ih =>
    have hc : ¬ c = '\n' := fun hc => h (by simp [hc])
    have hcs : ('\n' : Char) ∉ cs := fun hm => h (List.mem_cons_of_mem _ hm)
    rw [splitLinesC, if_neg hc, ih hcs]

/-- Splitting after appending a line feed peels off the first line. -/
theorem splitLinesC_append_lf (l rest : Chars) (h : ('\n' : Char) ∉ l) :
    splitLinesC (l ++ '\n' :: rest) = l :: splitLinesC rest := by
  induction l with
  | nil =>
    rw [List.nil_append, splitLinesC, if_pos rfl]
  | cons c cs ih =>
    have hc : ¬ c = '\n' := fun hc => h (by simp [hc])
    have hcs : ('\n' : Char) ∉ cs := fun hm => h (List.mem_cons_of_mem _ hm)
    rw [List.cons_append, splitLinesC, if_neg hc, ih hcs]

/-- Splitting the line-feed join of line-feed-free lines restores them. -/
theorem splitLinesC_joinChars (ls : List Chars) (hne : ls ≠ [])
    (h : ∀ l ∈ ls, ('\n' : Char) ∉ l) :
    splitLinesC (joinChars ls) = ls := by
  induction ls with
  | nil => exact absurd rfl hne
  | cons a t ih =>
    cases t with
    | nil =>
      rw [joinChars]
      exact splitLinesC_no_lf a (h a (by simp))
    | cons b ts =>
      rw [joinChars]
      rw [splitLinesC_append_lf _ _ (h a (by simp))]
      rw [ih (by simp) (fun l hl => h l (List.mem_cons_of_mem _ hl))]

/-- Dropping the final empty line is the identity when the last line is
not empty. -/
theorem dropFinalEmptyC_of_last (ls : List Chars) (h : ls.getLast? ≠ some []) :
    dropFinalEmptyC ls = ls := by
  induction ls with
  | nil => rfl
  | cons a t ih =>
    cases t with
    | nil =>
      rw [dropFinalEmptyC]
      have ha : ¬ a.isEmpty = true := by
        intro hE
        rw [List.isEmpty_iff] at hE
        exact h (by simp [hE])
      rw [if_neg ha]
    | cons b ts =>
      rw [dropFinalEmptyC]
      rw [ih (by simpa using h)]

/-- The last element of a mapped list is the image of the last element. -/
theorem getLast?_map_eq (f : String → Chars) (l : List String) :
    (l.map f).getLast? = l.getLast?.map f := by
  induction l with
  | nil => rfl
  | cons a t ih =>
    cases t with
    | nil => rfl
    | cons b ts =>
      rw [List.getLast?_cons_cons]
      rw [show List.map f (a :: b :: ts) = f a :: f b :: List.map f ts from rfl]
      rw [List.getLast?_cons_cons]
      exact ih

/-- Splitting the line-feed join of line-feed-free lines whose final
line is non-empty restores the lines. -/
theorem split_join_id (lines : List String)
    (h2 : ∀ l ∈ lines, ('\n' : Char) ∉ l.data)
    (h3 : lines.getLast? ≠ some "") :
    (dropFinalEmptyC (splitLinesC (joinChars (lines.map String.data)))).map
      String.mk = lines := by
  cases lines with
  | nil => rfl
  | cons a t =>
    rw [splitLinesC_joinChars ((a :: t).map String.data) (by simp)
      (fun l hl => by
        obtain ⟨s, hs1, hs2⟩ := List.mem_map.mp hl
        exact hs2 ▸ h2 s hs1)]
    rw [dropFinalEmptyC_of_last _ (by
      rw [getLast?_map_eq]
      intro hEq
      rcases hL : (a :: t).getLast? with - | s
      · rw [hL] at hEq
        exact Option.noConfusion hEq
      · rw [hL] at hEq
        injection hEq with hsd
        apply h3
        rw [hL]
        cases s with
        | mk d => cases hsd; rfl)]
    have hmk : ∀ s : String, String.mk s.data = s := fun s => by cases s; rfl
    rw [List.map_map]
    exact List.map_congr_left (fun s _ => hmk s) |>.trans (List.map_id _)

/-- C2 as stated fails: the three decode paths can disagree when a line
itself contains a line feed.  At `lines = ["a: 1\nb: 2"]`, decoding the
LF-joined text parses two key-value lines, while `decodeFromLines`
treats the input as one line whose value is the raw remainder. -/
theorem decode_paths_counterexample :
    decode (joinLF ["a: 1\nb: 2"]) defaultDecodeOptions ≠
      decodeFromLines ["a: 1\nb: 2"] defaultDecodeOptions := by
  intro h
  have h1 : decode (joinLF ["a: 1\nb: 2"]) defaultDecodeOptions =
      .ok (.obj [("a", .prim (.num 1)), ("b", .prim (.num 2))]) := rfl
  have h2 : decodeFromLines ["a: 1\nb: 2"] defaultDecodeOptions =
      .ok (.obj [("a", .prim (.str "1\nb: 2"))]) := rfl
  rw [h1, h2] at h
  simp at h

/-- C2 amended: when `expandPaths` is off, no line contains a line feed,
and the final line is non-empty, the three decode paths agree: decoding
the LF-joined text, `decodeFromLines` on the lines, and building the
value from the event stream of `decodeStreamSync`. -/
theorem decode_paths_agree (lines : List String) (opts : DecodeOptions)
    (h1 : opts.expandPaths = .off)
    (h2 : ∀ l ∈ lines, ('\n' : Char) ∉ l.data)
    (h3 : lines.getLast? ≠ some "") :
    decode (joinLF lines) opts = decodeFromLines lines opts ∧
    decodeFromLines lines opts =
      (decodeStreamSync lines opts >>= buildValueFromEvents) := by
  constructor
  · rw [decode]
    have hd : (joinLF lines).data = joinChars (lines.map String.data) := rfl
    rw [hd, split_join_id lines h2 h3]
  · rw [decodeFromLines, decodeStreamSync, h1]
    cases hc : decodeCoreEvents lines opts <;> rfl

/-- Witness for C2 amended at a concrete two-line input. -/
theorem decode_paths_agree_witness :
    (decode (joinLF ["name: Alice", "age: 30"]) defaultDecodeOptions =
      decodeFromLines ["name: Alice", "age: 30"] defaultDecodeOptions) ∧
    decodeFromLines ["name: Alice", "age: 30"] defaultDecodeOptions =
      (decodeStreamSync ["name: Alice", "age: 30"] defaultDecodeOptions >>=
        buildValueFromEvents) :=
  decode_paths_agree ["name: Alice", "age: 30"] defaultDecodeOptions rfl
    (by decide) (by decide)

/-- C3: key folding and path expansion are mutually inverse on
single-key object chains: `encode({data:{metadata:{items:["a","b"]}}},
{keyFolding:"safe"})` returns exactly the single line
`data.metadata.items[2]: a,b`, and decoding that output with
`expandPaths:"safe"` returns the original value. -/
theorem fold_expand_inverse_on_chain :
    encodeLines (.obj [("data", .obj [("metadata", .obj [("items",
        .arr [.prim (.str "a"), .prim (.str "b")])])])]) ⟨2, ',', .safe, none⟩ =
      ["data.metadata.items[2]: a,b"] ∧
    encode (.obj [("data", .obj [("metadata", .obj [("items",
        .arr [.prim (.str "a"), .prim (.str "b")])])])]) ⟨2, ',', .safe, none⟩ =
      "data.metadata.items[2]: a,b" ∧
    decode "data.metadata.items[2]: a,b" ⟨2, true, .safe⟩ =
      .ok (.obj [("data", .obj [("metadata", .obj [("items",
        .arr [.prim (.str "a"), .prim (.str "b")])])])]) :=
  ⟨rfl, rfl, rfl⟩

/-- C5: decoding a list array whose declared length differs from the
actual entry count raises `LengthMismatch` in strict mode and accepts
the actual count in lenient mode. -/
theorem list_length_mismatch_strict_vs_lenient :
    decode "items[2]:\n  - Apple" ⟨2, true, .off⟩ = .error .lengthMismatch ∧
    decode "items[2]:\n  - Apple" ⟨2, false, .off⟩ =
      .ok (.obj [("items", .arr [.prim (.str "Apple")])]) :=
  ⟨rfl, rfl⟩

/-- C6: merging an object with a non-object during path expansion
raises `ExpansionConflict` in strict mode and applies last-write-wins
in lenient mode. -/
theorem expansion_conflict_strict_vs_lenient :
    decode "a.b: 1\na: 2" ⟨2, true, .safe⟩ = .error .expansionConflict ∧
    decode "a.b: 1\na: 2" ⟨2, false, .safe⟩ =
      .ok (.obj [("a", .prim (.num 2))]) :=
  ⟨rfl, rfl⟩

/-- C7: `decodeStreamSync` raises `UnsupportedOption` whenever the
`expandPaths` option is requested, for every line input; no event
stream is produced. -/
theorem stream_rejects_expand_paths (lines : List String) (opts : DecodeOptions)
    (h : opts.expandPaths = .safe) :
    decodeStreamSync lines opts = .error .unsupportedOption := by
  simp [decodeStreamSync, h]

/-- Witness for C7 at a concrete input. -/
theorem stream_rejects_expand_paths_witness :
    decodeStreamSync ["name: Alice"] ⟨2, true, .safe⟩ = .error .unsupportedOption :=
  stream_rejects_expand_paths ["name: Alice"] ⟨2, true, .safe⟩ rfl

/-- C8: `decodeStreamSync(["name: Alice","age: 30"])` yields exactly
the six events startObject, key(name), primitive("Alice"), key(age),
primitive(30), endObject, in that order, with the value of `age`
parsed as the number 30. -/
theorem stream_simple_object_events :
    decodeStreamSync ["name: Alice", "age: 30"] defaultDecodeOptions =
      .ok [.startObject, .key "name" false, .primitive (.str "Alice"),
           .key "age" false, .primitive (.num 30), .endObject] :=
  rfl

/-- C9: empty input decodes to the empty object: the event stream of no
lines is exactly startObject, endObject, and `decode("")` returns the
empty object. -/
theorem empty_input_decodes_to_empty_object :
    decodeStreamSync [] defaultDecodeOptions = .ok [.startObject, .endObject] ∧
    decode "" defaultDecodeOptions = .ok (.obj []) :=
  ⟨rfl, rfl⟩

/-- C10: root values that are not objects are never wrapped in object
events: for every single line whose content has no header terminator
and parses as a scalar, the stream is exactly one primitive event; and
a root array header yields startArray through endArray with no
surrounding startObject/endObject, exemplified at `[2]:`. -/
theorem root_non_objects_unwrapped (line : String) (cs : Chars) (p : Prim)
    (hp : parsePLine defaultDecodeOptions line = .ok (0, cs))
    (hs : scanColon cs = none)
    (hv : parseScalar (trimSpaces cs) = .ok p) :
    decodeStreamSync [line] defaultDecodeOptions = .ok [.primitive p] ∧
    decodeStreamSync ["[2]:", "  - Apple", "  - Banana"] defaultDecodeOptions =
      .ok [.startArray 2, .primitive (.str "Apple"), .primitive (.str "Banana"),
           .endArray] := by
  refine ⟨?_, rfl⟩
  rw [decodeStreamSync]
  rw [if_neg (by simp [defaultDecodeOptions])]
  rw [decodeCoreEvents]
  rw [show ([line].mapM (parsePLine defaultDecodeOptions)) =
        Except.ok [(0, cs)] from by
      rw [List.mapM_cons, List.mapM_nil, hp]
      rfl]
  simp only [List.length_cons, List.length_nil]
  rw [parseContent, hs]
  rw [if_neg (by decide : ¬ (0 : Nat) ≠ 0)]
  show (match parseScalar (trimSpaces cs) with
        | .error e => Except.error e
        | .ok q => Except.ok [Event.primitive q]) = Except.ok [Event.primitive p]
  rw [hv]

/-- Witness for C10 at the concrete line `Hello World`. -/
theorem root_non_objects_unwrapped_witness :
    decodeStreamSync ["Hello World"] defaultDecodeOptions =
      .ok [.primitive (.str "Hello World")] ∧
    decodeStreamSync ["[2]:", "  - Apple", "  - Banana"] defaultDecodeOptions =
      .ok [.startArray 2, .primitive (.str "Apple"), .primitive (.str "Banana"),
           .endArray] :=
  root_non_objects_unwrapped "Hello World" ("Hello World".data)
    (.str "Hello World") rfl rfl rfl

end Toon
